import Mathlib

/-!
Verification of the complete-run reconciliation pipeline.

This file shallowly embeds the decision logic of the Go pipeline
(select → validate → complete) and proves the spec's claims about it:

* `filter.processResults` (run selection: all-passed shortcut, latest-wins
  per-case rule, sorted output);
* `match.validateRunCases` (cross-check of a run against the remote
  authoritative case multiset) and the `MatchResults` accumulator;
* the retrying HTTP executor (`isRetryableError`, `retryableHTTPRequest`)
  and its retry-configuration values;
* the completion stage (`readRunIDs` parsing, the `CompleteRuns` loop, and
  the append-only error ledger written by `logError`).

File contents (results.json, filtered.txt, final.txt, errors.txt) are
modelled as character lists / string lists; remote calls are modelled by
explicit oracles (one outcome per attempt).  Machine `int` values are
modelled as `Int`/`Nat`: every value involved (run IDs, case IDs, HTTP
status codes, retry counts) is far below any overflow boundary.
-/

/-- Go's `<` on `string` values: byte-wise lexicographic comparison.  For
valid UTF-8 the byte order coincides with code-point order, so we compare
the character lists of the two strings. -/
def goStrLt : List Char → List Char → Bool
  | [], [] => false
  | [], _ :: _ => true
  | _ :: _, [] => false
  | a :: as, b :: bs => if a < b then true else if b < a then false else goStrLt as bs

/-- The fields of `filter.TestResult` consulted by the decision logic.  The
remaining JSON fields (attachments, comment, hash, is_api_result, stacktrace,
steps, time_spent_ms) are opaque payload never read by `processResults` or by
`validateRunCases`, so they are omitted from the embedding. -/
structure TestResult where
  caseID : Nat
  endTime : String
  runID : Nat
  status : String
deriving DecidableEq

/-- Go `result.EndTime > t` (byte-wise string comparison). -/
def endAfter (r : TestResult) (t : String) : Bool :=
  goStrLt t.data r.endTime.data

/-- The local variables of the per-case loop in `processResults`:
`hasPassed`, `latestPassedTime`, `latestOverallTime`, `latestOverallStatus`. -/
structure CaseAcc where
  hasPassed : Bool
  latestPassedTime : String
  latestOverallTime : String
  latestOverallStatus : String
deriving DecidableEq

/-- Initial values of the per-case loop variables (`false` and empty strings). -/
def initCaseAcc : CaseAcc := ⟨false, "", "", ""⟩

/-- One iteration of the inner loop of `processResults` over one record of a
case: update the latest overall record, then the latest passed record. -/
def stepCase (acc : CaseAcc) (r : TestResult) : CaseAcc :=
  let acc1 :=
    if endAfter r acc.latestOverallTime then
      { acc with latestOverallTime := r.endTime, latestOverallStatus := r.status }
    else acc
  if r.status == "passed" then
    let acc2 := { acc1 with hasPassed := true }
    if endAfter r acc2.latestPassedTime then
      { acc2 with latestPassedTime := r.endTime }
    else acc2
  else acc1

/-- The per-case loop of `processResults`, run over all records of one case. -/
def caseAccOf (caseResults : List TestResult) : CaseAcc :=
  caseResults.foldl stepCase initCaseAcc

/-- The per-case acceptance test of `processResults`: the case has a passing
record, and the chronologically latest record is that passing one
(`latestPassedTime == latestOverallTime && latestOverallStatus == "passed"`). -/
def caseEligible (caseResults : List TestResult) : Bool :=
  let acc := caseAccOf caseResults
  acc.hasPassed &&
    (acc.latestPassedTime == acc.latestOverallTime && acc.latestOverallStatus == "passed")

/-- The records of one case within one run's record list (the entry
`caseStatuses[caseID]` built by `processResults`). -/
def caseRecords (results : List TestResult) (c : Nat) : List TestResult :=
  results.filter (fun r => r.caseID == c)

/-- The distinct case IDs of a run (the key set of `caseStatuses`).  Go map
iteration order is unspecified; the loop's outcome is order-independent, so
any enumeration of the distinct keys is a faithful model. -/
def caseIDsOf (results : List TestResult) : List Nat :=
  (results.map (fun r => r.caseID)).dedup

/-- The `keepRunID` loop of `processResults`: `keepRunID` starts `false`; a
case passing the test sets it `true`, a case failing the test sets it `false`
and breaks out of the loop. -/
def checkCases (results : List TestResult) : List Nat → Bool → Bool
  | [], keep => keep
  | c :: rest, _ =>
    if caseEligible (caseRecords results c) then checkCases results rest true
    else false

/-- The `allPassed` flag of `processResults`: no record of the run has a
status other than `"passed"`. -/
def allPassed (results : List TestResult) : Bool :=
  results.all (fun r => r.status == "passed")

/-- Per-run body of `processResults`: an all-passed run is selected
immediately; otherwise the run is selected iff the per-case loop ends with
`keepRunID = true`. -/
def processRun (results : List TestResult) : Bool :=
  if allPassed results then true
  else checkCases results (caseIDsOf results) false

/-- `filter.processResults`: keep the runs accepted by `processRun` and sort
the selected run IDs ascending (`sort.Ints`).  The Go map `runResults` is
modelled as an association list. -/
def processResults (runResults : List (Nat × List TestResult)) : List Nat :=
  ((runResults.filter (fun p => processRun p.2)).map Prod.fst).mergeSort
    (fun a b => decide (a ≤ b))

/-- The `validRunIDs` accumulator of `match.MatchResults`: each goroutine
whose run is confirmed appends its run ID (under a mutex) in the order the
validations complete; no sort is applied before `writeValidRunIDs` joins the
list.  `schedule` is the completion order of the spawned run IDs and
`confirm` the per-run validation outcome. -/
def matchValidRunIDs (schedule : List Nat) (confirm : Nat → Bool) : List Nat :=
  schedule.foldl (fun acc runID => if confirm runID then acc ++ [runID] else acc) []

/-- One iteration of the scan in `match.validateRunCases` over one local log
record: for records of the run under validation, increment
`foundCases[caseID]`; a non-passed record stores `passedCases[caseID] = false`
unconditionally, a passed record stores `true` only when the key is absent.
The two Go maps are modelled as `Nat → Nat` (zero default) and
`Nat → Option Bool` (`none` = key absent). -/
def scanStep (runID : Nat) (maps : (Nat → Nat) × (Nat → Option Bool)) (r : TestResult) :
    (Nat → Nat) × (Nat → Option Bool) :=
  if r.runID == runID then
    let found := fun c => if c == r.caseID then maps.1 c + 1 else maps.1 c
    let passed :=
      if r.status != "passed" then
        fun c => if c == r.caseID then some false else maps.2 c
      else
        match maps.2 r.caseID with
        | none => fun c => if c == r.caseID then some true else maps.2 c
        | some _ => maps.2
    (found, passed)
  else maps

/-- The scan loop of `validateRunCases` over the whole local result log. -/
def scanResults (runID : Nat) : List TestResult → (Nat → Nat) × (Nat → Option Bool) →
    (Nat → Nat) × (Nat → Option Bool)
  | [], maps => maps
  | r :: rest, maps => scanResults runID rest (scanStep runID maps r)

/-- `match.validateRunCases`: build `foundCases`/`passedCases` from the local
log, then require, for every distinct case ID of the authoritative list
`caseIDs`, that `foundCases[caseID] < expectedCount || !passedCases[caseID]`
fails, where `expectedCount` is the case's multiplicity in `caseIDs` (the
`caseCount` map, built by incrementing per occurrence, equals `List.count`).
Go map iteration order is unspecified; the conjunction over distinct keys is
order-independent. -/
def validateRunCases (runID : Nat) (caseIDs : List Nat) (results : List TestResult) : Bool :=
  let maps := scanResults runID results (fun _ => 0, fun _ => none)
  caseIDs.dedup.all fun c =>
    !(decide (maps.1 c < caseIDs.count c) || !((maps.2 c).getD false))

/-- Outcome of one HTTP attempt as seen by `retryableHTTPRequest`: either a
transport-level failure (`httpClient.Do` returned a non-nil error and a nil
response) or a response with a status code. -/
inductive AttemptResult where
  | transportFailure : AttemptResult
  | response (statusCode : Nat) : AttemptResult
deriving DecidableEq

/-- The error component returned by `retryableHTTPRequest`: either the
immediate `non-retryable HTTP error: %d` or the exhaustion error
`request failed after %d attempts: %v`, which carries the attempt count and
the final value of `lastErr` — a transport error when the last attempt failed
at transport level, and nil (`false`) otherwise. -/
inductive RequestError where
  | nonRetryableHTTP (statusCode : Nat) : RequestError
  | exhausted (attempts : Nat) (lastTransportFailure : Bool) : RequestError
deriving DecidableEq

/-- The `(resp, err)` pair returned by `retryableHTTPRequest`; `resp` is the
status code of the last received response, if any. -/
structure HTTPOutcome where
  resp : Option Nat
  err : Option RequestError
deriving DecidableEq

/-- `complete.isRetryableError`: a non-nil transport error is always
retryable; otherwise the status code is retryable exactly for the switch
cases 429 and 500, 502, 503, 504. -/
def isRetryableError (hasTransportErr : Bool) (statusCode : Nat) : Bool :=
  if hasTransportErr then true
  else if statusCode == 429 then true
  else if statusCode == 500 || statusCode == 502 || statusCode == 503 || statusCode == 504 then
    true
  else false

/-- The attempt loop of `retryableHTTPRequest`, carrying the mutable `resp`
and `lastErr` variables (`lastTransport` = whether the most recent attempt
failed at transport level, i.e. whether `lastErr` is non-nil).  `fetch` gives
the outcome of each attempt; `fuel` counts the remaining loop iterations
(`maxRetries + 1 - attempt`).  A 2xx response returns success; a non-2xx,
non-retryable response returns immediately with an error; a retryable failure
falls through to the next iteration; running out of iterations returns the
exhaustion error built from `maxRetries + 1` and `lastErr`. -/
def retryLoop (fetch : Nat → AttemptResult) (maxRetries : Nat) :
    Nat → Nat → Option Nat → Bool → HTTPOutcome
  | 0, _, resp, lastTransport => ⟨resp, some (.exhausted (maxRetries + 1) lastTransport)⟩
  | fuel + 1, attempt, _, _ =>
    match fetch attempt with
    | .transportFailure => retryLoop fetch maxRetries fuel (attempt + 1) none true
    | .response code =>
      if 200 ≤ code ∧ code < 300 then ⟨some code, none⟩
      else if !isRetryableError false code then ⟨some code, some (.nonRetryableHTTP code)⟩
      else retryLoop fetch maxRetries fuel (attempt + 1) (some code) false

/-- `complete.retryableHTTPRequest`: run the attempt loop from attempt 0 with
`maxRetries + 1` iterations and initial `resp = nil`, `lastErr = nil`. -/
def retryableHTTPRequest (fetch : Nat → AttemptResult) (maxRetries : Nat) : HTTPOutcome :=
  retryLoop fetch maxRetries (maxRetries + 1) 0 none false

/-- Retry configuration values (durations in milliseconds; `backoffFactor`
is `2.0` in both configurations, exactly representable as a natural). -/
structure RetryConfig where
  maxRetries : Nat
  initialDelayMs : Nat
  maxDelayMs : Nat
  backoffFactor : Nat
  requestTimeoutMs : Nat
deriving DecidableEq

/-- `complete.defaultRetryConfig`: 3 retries, 500ms initial delay, 10s max
delay, factor 2.0, 30s request timeout. -/
def defaultRetryConfig : RetryConfig := ⟨3, 500, 10000, 2, 30000⟩

/-- The `completionRetryConfig` built inside `complete.completeRun`: 2
retries, 300ms initial delay, 5s max delay, factor 2.0, 20s request
timeout. -/
def completionRetryConfig : RetryConfig := ⟨2, 300, 5000, 2, 20000⟩

/-- `match.fetchCasesForRunID` performs a single `http.DefaultClient.Do`
call with no retry loop: zero retries. -/
def validationFetchMaxRetries : Nat := 0

/-- `http.DefaultClient` leaves `Timeout` at its zero value: no request
timeout at all for the Validation Engine's remote calls. -/
def validationFetchTimeoutMs : Option Nat := none

/-- The line `complete.logError` writes for a failed run. -/
def errorEntry (runID : Int) : String :=
  "Run ID " ++ toString runID ++ ": Test run not found"

/-- `complete.logError`: open `errors.txt` with `O_APPEND|O_CREATE|O_WRONLY`
and write one line.  The append-mode open keeps the existing lines and places
the write after them (it never truncates), so on the ledger modelled as its
list of lines it appends one entry. -/
def logError (ledger : List String) (runID : Int) : List String :=
  ledger ++ [errorEntry runID]

/-- The loop of `complete.CompleteRuns`: one completion call per run ID in
order; a failed call (`success runID = false`) appends to the ledger via
`logError`.  `success` is the remote completion outcome per run ID. -/
def completeStage (success : Int → Bool) (runIDs : List Int) (ledger : List String) :
    List String :=
  runIDs.foldl (fun led runID => if success runID then led else logError led runID) ledger

/-- Go `strings.TrimSpace`: drop leading and trailing whitespace. -/
def trimSpace (s : List Char) : List Char :=
  ((s.dropWhile Char.isWhitespace).reverse.dropWhile Char.isWhitespace).reverse

/-- Go `strings.Split(s, ",")`: the comma-separated tokens of `s`; splitting
the empty string yields the one-element list containing the empty token. -/
def splitComma : List Char → List (List Char)
  | [] => [[]]
  | c :: rest =>
    if c == ',' then [] :: splitComma rest
    else
      match splitComma rest with
      | t :: ts => (c :: t) :: ts
      | [] => [c] :: []

/-- Value of a list of decimal digit characters. -/
def digitsVal (ds : List Char) : Nat :=
  ds.foldl (fun n c => n * 10 + (c.toNat - 48)) 0

/-- `fmt.Sscanf(part, "%d", &id)`: skip leading whitespace, accept an
optional sign, then read decimal digits; the scan fails (stores nothing into
`id`) when no digit follows. -/
def sscanfInt (part : List Char) : Option Int :=
  let s := part.dropWhile Char.isWhitespace
  match s with
  | '-' :: r =>
    let ds := r.takeWhile Char.isDigit
    if ds == [] then none else some (-(digitsVal ds : Int))
  | '+' :: r =>
    let ds := r.takeWhile Char.isDigit
    if ds == [] then none else some (digitsVal ds : Int)
  | _ =>
    let ds := s.takeWhile Char.isDigit
    if ds == [] then none else some (digitsVal ds : Int)

/-- `complete.readRunIDs` (same body in `match.readRunIDs`): TrimSpace the
file content, Split on `","`, Sscanf `"%d"` into a fresh `id` per token and
append `id`; a token whose scan fails contributes the unchanged zero value. -/
def readRunIDs (content : List Char) : List Int :=
  (splitComma (trimSpace content)).map fun part => (sscanfInt part).getD 0

/-- `complete.CompleteRuns`: parse `final.txt` and issue one completion call
per parsed run ID, in order, logging each failure; the first component is the
sequence of issued completion-call run IDs, the second the final ledger. -/
def completeRunsModel (content : List Char) (success : Int → Bool) (ledger : List String) :
    List Int × List String :=
  (readRunIDs content, completeStage success (readRunIDs content) ledger)

/-- The effect of one local log record's status on the `passedCases` entry of
its case (the per-key abstraction of `scanStep`'s second component): a
non-passed record stores `false` unconditionally, a passed record stores
`true` only when the entry is absent. -/
def passedUpd (cur : Option Bool) (st : String) : Option Bool :=
  if st != "passed" then some false
  else
    match cur with
    | none => some true
    | some b => some b

/-- An attempt outcome that `retryableHTTPRequest` treats as a retryable
failure: a transport-level failure, or a non-2xx response whose status code
`isRetryableError` classifies as retryable. -/
def attemptFailsRetryably : AttemptResult → Bool
  | .transportFailure => true
  | .response code =>
    !(decide (200 ≤ code) && decide (code < 300)) && isRetryableError false code

/-! ## Helper lemmas about the Selection Engine -/

theorem checkCases_eligible_of_true (results : List TestResult) :
    ∀ (l : List Nat) (keep : Bool), checkCases results l keep = true →
      ∀ c ∈ l, caseEligible (caseRecords results c) = true := by
  intro l
  induction l with
  | nil => intro keep _ c hc; cases hc
  | cons d rest ih =>
    intro keep h c hc
    unfold checkCases at h
    by_cases hd : caseEligible (caseRecords results d) = true
    · rw [if_pos hd] at h
      rcases List.mem_cons.mp hc with rfl | hc'
      · exact hd
      · exact ih true h c hc'
    · rw [if_neg hd] at h
      exact absurd h (by simp)

theorem stepCase_hasPassed_of_not_passed (acc : CaseAcc) (r : TestResult)
    (h : r.status ≠ "passed") : (stepCase acc r).hasPassed = acc.hasPassed := by
  unfold stepCase
  rw [if_neg (by simpa using h)]
  split <;> rfl

theorem foldl_stepCase_hasPassed (l : List TestResult) :
    ∀ acc : CaseAcc, (∀ r ∈ l, r.status ≠ "passed") →
      (l.foldl stepCase acc).hasPassed = acc.hasPassed := by
  induction l with
  | nil => intro acc _; rfl
  | cons r rest ih =>
    intro acc h
    rw [List.foldl_cons, ih (stepCase acc r) (fun s hs => h s (List.mem_cons_of_mem r hs)),
      stepCase_hasPassed_of_not_passed acc r (h r (List.mem_cons_self r rest))]

theorem caseEligible_eq_false_of_no_pass (l : List TestResult)
    (h : ∀ r ∈ l, r.status ≠ "passed") : caseEligible l = false := by
  have h1 : (List.foldl stepCase initCaseAcc l).hasPassed = false := by
    rw [foldl_stepCase_hasPassed l initCaseAcc h]; rfl
  simp [caseEligible, caseAccOf, h1]

theorem checkCases_eq_false_of_mem (results : List TestResult) :
    ∀ (l : List Nat) (keep : Bool) (c : Nat), c ∈ l →
      caseEligible (caseRecords results c) = false →
      checkCases results l keep = false := by
  intro l
  induction l with
  | nil => intro keep c hc; cases hc
  | cons d rest ih =>
    intro keep c hc hfalse
    unfold checkCases
    rcases List.mem_cons.mp hc with rfl | hc'
    · rw [if_neg (by simp [hfalse])]
    · by_cases hd : caseEligible (caseRecords results d) = true
      · rw [if_pos hd]; exact ih true c hc' hfalse
      · rw [if_neg hd]

/-- C3: every run in which every record has status `"passed"` is Selected
immediately by `processRun` (the all-passed shortcut), whatever the records'
timestamps — the run list is arbitrary, so in particular the timestamps
are. -/
theorem all_passed_shortcut (results : List TestResult)
    (h : ∀ r ∈ results, r.status = "passed") : processRun results = true := by
  unfold processRun
  rw [if_pos (by simpa [allPassed, List.all_eq_true] using h)]

/-- Witness for C3 at a concrete run whose two passing records have
deliberately out-of-order timestamps. -/
theorem all_passed_shortcut_witness :
    processRun [⟨1, "zzz", 5, "passed"⟩, ⟨2, "aaa", 5, "passed"⟩] = true :=
  all_passed_shortcut _ (by decide)

/-- C4: a run containing a case with at least one record but no passing
record is never selected by `processRun`, even when every other case is
fully passing (the hypotheses constrain only case `c`). -/
theorem single_failure_veto (results : List TestResult) (c : Nat)
    (hmem : ∃ r ∈ results, r.caseID = c)
    (hfail : ∀ r ∈ results, r.caseID = c → r.status ≠ "passed") :
    processRun results = false := by
  obtain ⟨r0, hr0, hr0c⟩ := hmem
  have hall : allPassed results = false := by
    simp only [allPassed, List.all_eq_false]
    exact ⟨r0, hr0, by simpa using hfail r0 hr0 hr0c⟩
  have hcmem : c ∈ caseIDsOf results := by
    unfold caseIDsOf
    exact List.mem_dedup.mpr (List.mem_map.mpr ⟨r0, hr0, hr0c⟩)
  have hcelig : caseEligible (caseRecords results c) = false := by
    apply caseEligible_eq_false_of_no_pass
    intro r hr
    rw [caseRecords, List.mem_filter] at hr
    exact hfail r hr.1 (by simpa using hr.2)
  unfold processRun
  rw [if_neg (by simp [hall])]
  exact checkCases_eq_false_of_mem results (caseIDsOf results) false c hcmem hcelig

/-- Witness for C4: run 5 has case 1 fully passing and case 2 with only a
failed record; the run is rejected. -/
theorem single_failure_veto_witness :
    processRun [⟨1, "T1", 5, "passed"⟩, ⟨2, "T2", 5, "failed"⟩] = false :=
  single_failure_veto _ 2 ⟨⟨2, "T2", 5, "failed"⟩, by decide, rfl⟩ (by decide)

/-- C1: the latest-wins selection rule.  First conjunct: a run that is not
all-passed is selected by `processRun` only if, for every one of its cases
(hence in particular every case with a passing record), the case has a
passing record, `latestPassedTime` equals `latestOverallTime`, and
`latestOverallStatus` is `"passed"` — i.e. the chronologically latest record
(byte-lexicographic end-time comparison) is itself a passing one.  Second and
third conjuncts: with records at T1 (passed) and T2 (failed), T2 > T1 rejects
the run, while T2 < T1 selects it (there being no other cases). -/
theorem latest_wins_selection :
    (∀ (results : List TestResult) (c : Nat),
        processRun results = true → allPassed results = false →
        c ∈ caseIDsOf results →
        (caseAccOf (caseRecords results c)).hasPassed = true
        ∧ (caseAccOf (caseRecords results c)).latestPassedTime
            = (caseAccOf (caseRecords results c)).latestOverallTime
        ∧ (caseAccOf (caseRecords results c)).latestOverallStatus = "passed")
    ∧ processRun [⟨1, "T1", 9, "passed"⟩, ⟨1, "T2", 9, "failed"⟩] = false
    ∧ processRun [⟨1, "T2", 9, "passed"⟩, ⟨1, "T1", 9, "failed"⟩] = true := by
  refine ⟨?_, by decide, by decide⟩
  intro results c hsel hnp hc
  have hchk : checkCases results (caseIDsOf results) false = true := by
    unfold processRun at hsel
    rwa [if_neg (by simp [hnp])] at hsel
  have helig := checkCases_eligible_of_true results (caseIDsOf results) false hchk c hc
  unfold caseEligible at helig
  simpa [Bool.and_eq_true, beq_iff_eq] using helig

/-- Witness for C1 applied to the selected run of its third conjunct: case 1
of run 9 (passed at T2, failed at T1) has its latest passed time equal to its
latest overall time. -/
theorem latest_wins_selection_witness :
    (caseAccOf (caseRecords [⟨1, "T2", 9, "passed"⟩, ⟨1, "T1", 9, "failed"⟩] 1)).latestPassedTime
      = (caseAccOf (caseRecords [⟨1, "T2", 9, "passed"⟩,
          ⟨1, "T1", 9, "failed"⟩] 1)).latestOverallTime :=
  (latest_wins_selection.1 [⟨1, "T2", 9, "passed"⟩, ⟨1, "T1", 9, "failed"⟩] 1
    (by decide) (by decide) (by decide)).2.1

/-! ## Helper lemmas about the Validation Engine -/

theorem scanResults_found (runID : Nat) :
    ∀ (l : List TestResult) (maps : (Nat → Nat) × (Nat → Option Bool)) (c : Nat),
      (scanResults runID l maps).1 c
        = maps.1 c + (l.filter (fun r => r.runID == runID && r.caseID == c)).length := by
  intro l
  induction l with
  | nil => intro maps c; simp [scanResults]
  | cons r rest ih =>
    intro maps c
    simp only [scanResults]
    rw [ih, List.filter_cons]
    by_cases hrun : r.runID = runID
    · by_cases hcase : r.caseID = c
      · simp [scanStep, hrun, hcase]
        omega
      · simp [scanStep, hrun, hcase, Ne.symm hcase]
    · simp [scanStep, hrun]

theorem scanResults_passed (runID : Nat) :
    ∀ (l : List TestResult) (maps : (Nat → Nat) × (Nat → Option Bool)) (c : Nat),
      (scanResults runID l maps).2 c
        = ((l.filter (fun r => r.runID == runID && r.caseID == c)).map
            (fun r => r.status)).foldl passedUpd (maps.2 c) := by
  intro l
  induction l with
  | nil => intro maps c; simp [scanResults]
  | cons r rest ih =>
    intro maps c
    simp only [scanResults]
    rw [ih, List.filter_cons]
    by_cases hrun : r.runID = runID
    · by_cases hcase : r.caseID = c
      · have hstep : (scanStep runID maps r).2 c = passedUpd (maps.2 c) r.status := by
          by_cases hst : r.status = "passed"
          · subst hcase
            simp only [scanStep, hrun, beq_self_eq_true, if_pos, hst, passedUpd]
            simp only [bne_self_eq_false, Bool.false_eq_true, if_false, String.reduceBNe]
            cases hmc : maps.2 r.caseID <;> simp [hmc]
          · subst hcase
            simp [scanStep, hrun, hst, passedUpd, bne_iff_ne]
        simp only [hstep, hrun, hcase, beq_self_eq_true, Bool.and_self, if_pos,
          List.map_cons, List.foldl_cons]
      · have hstep : (scanStep runID maps r).2 c = maps.2 c := by
          simp only [scanStep, hrun, beq_self_eq_true, if_pos]
          split
          · simp [Ne.symm hcase]
          · cases hmc : maps.2 r.caseID <;> simp [hmc, Ne.symm hcase]
        simp [hstep, hcase]
    · have hstep : (scanStep runID maps r).2 c = maps.2 c := by
        simp [scanStep, hrun]
      simp [hstep, hrun]

theorem passedUpd_some_false (st : String) : passedUpd (some false) st = some false := by
  unfold passedUpd
  split <;> rfl

theorem foldl_passedUpd_some_false (sts : List String) :
    sts.foldl passedUpd (some false) = some false := by
  induction sts with
  | nil => rfl
  | cons st rest ih => rw [List.foldl_cons, passedUpd_some_false, ih]

theorem foldl_passedUpd_of_bad (sts : List String) :
    ∀ cur, (∃ st ∈ sts, st ≠ "passed") → sts.foldl passedUpd cur = some false := by
  induction sts with
  | nil => rintro cur ⟨st, hst, _⟩; cases hst
  | cons st rest ih =>
    intro cur h
    rw [List.foldl_cons]
    by_cases hst : st = "passed"
    · rcases h with ⟨s, hs, hsn⟩
      rcases List.mem_cons.mp hs with rfl | hs'
      · exact absurd hst hsn
      · exact ih _ ⟨s, hs', hsn⟩
    · have hupd : passedUpd cur st = some false := by
        unfold passedUpd
        rw [if_pos (by simpa [bne_iff_ne] using hst)]
      rw [hupd, foldl_passedUpd_some_false]

theorem foldl_passedUpd_none_eq_some_true (sts : List String)
    (h : sts.foldl passedUpd none = some true) :
    sts ≠ [] ∧ ∀ st ∈ sts, st = "passed" := by
  constructor
  · intro hnil
    rw [hnil] at h
    cases h
  · intro st hst
    by_contra hne
    rw [foldl_passedUpd_of_bad sts none ⟨st, hst, hne⟩] at h
    simp at h

/-- C2: the validation cross-check.  First conjunct: whenever
`validateRunCases` confirms a run, every distinct case ID of the
authoritative multiset `caseIDs` has at least as many local log records for
`(runID, caseID)` as its authoritative count, the case has at least one such
record, and every chronologically-latest such record (no other record of the
case ends strictly later, by byte-lexicographic end-time comparison) is a
passing one; contrapositively, a case failing either condition leaves the run
not Confirmed.  Second conjunct: the claim's example — the remote list
reports case 7 twice but the local log holds a single (passing) record for
it, so the run is rejected at validation. -/
theorem validation_cross_check :
    (∀ (runID : Nat) (caseIDs : List Nat) (results : List TestResult) (c : Nat),
        validateRunCases runID caseIDs results = true → c ∈ caseIDs →
        caseIDs.count c
            ≤ (results.filter (fun r => r.runID == runID && r.caseID == c)).length
        ∧ results.filter (fun r => r.runID == runID && r.caseID == c) ≠ []
        ∧ ∀ r ∈ results.filter (fun r => r.runID == runID && r.caseID == c),
            (∀ r' ∈ results.filter (fun r => r.runID == runID && r.caseID == c),
                endAfter r' r.endTime = false) →
            r.status = "passed")
    ∧ validateRunCases 1 [7, 7] [⟨7, "T1", 1, "passed"⟩] = false := by
  refine ⟨?_, by decide⟩
  intro runID caseIDs results c hval hc
  simp only [validateRunCases, List.all_eq_true] at hval
  have h1 := hval c (List.mem_dedup.mpr hc)
  rw [Bool.not_eq_true', Bool.or_eq_false_iff] at h1
  obtain ⟨hcount, hpassed⟩ := h1
  rw [scanResults_found runID results (fun _ => 0, fun _ => none) c,
    decide_eq_false_iff_not] at hcount
  have hfound : caseIDs.count c
      ≤ (results.filter (fun r => r.runID == runID && r.caseID == c)).length := by
    simp only [Nat.not_lt] at hcount
    simpa using hcount
  rw [scanResults_passed runID results (fun _ => 0, fun _ => none) c,
    Bool.not_eq_false'] at hpassed
  have hpassed' : (((results.filter (fun r => r.runID == runID && r.caseID == c)).map
      (fun r => r.status)).foldl passedUpd none).getD false = true := by
    simpa using hpassed
  have hsome : ((results.filter (fun r => r.runID == runID && r.caseID == c)).map
      (fun r => r.status)).foldl passedUpd none = some true := by
    rcases hfold : ((results.filter (fun r => r.runID == runID && r.caseID == c)).map
        (fun r => r.status)).foldl passedUpd none with _ | b
    · rw [hfold] at hpassed'; cases hpassed'
    · rw [hfold] at hpassed'
      simp only [Option.getD_some] at hpassed'
      rw [hpassed'] at hfold
      exact hfold
  obtain ⟨hne, hall⟩ := foldl_passedUpd_none_eq_some_true _ hsome
  refine ⟨hfound, ?_, ?_⟩
  · intro hnil
    rw [hnil] at hne
    exact hne rfl
  · intro r hr _
    exact hall r.status (List.mem_map.mpr ⟨r, hr, rfl⟩)

/-- Witness for C2: run 1 with authoritative list `[5]` and one local passing
record for case 5 is confirmed, so case 5's authoritative count is covered by
the local record count. -/
theorem validation_cross_check_witness :
    List.count 5 [5]
      ≤ (List.filter (fun r => r.runID == 1 && r.caseID == 5)
          [(⟨5, "T1", 1, "passed"⟩ : TestResult)]).length :=
  (validation_cross_check.1 1 [5] [⟨5, "T1", 1, "passed"⟩] 5 (by decide) (by decide)).1

/-! ## Helper lemmas about the retrying executor -/

theorem retryLoop_zero (fetch : Nat → AttemptResult) (maxRetries attempt : Nat)
    (resp : Option Nat) (lastT : Bool) :
    retryLoop fetch maxRetries 0 attempt resp lastT
      = ⟨resp, some (.exhausted (maxRetries + 1) lastT)⟩ := by
  rw [retryLoop]

theorem retryLoop_succ_transport (fetch : Nat → AttemptResult)
    (maxRetries fuel attempt : Nat) (resp : Option Nat) (lastT : Bool)
    (hf : fetch attempt = .transportFailure) :
    retryLoop fetch maxRetries (fuel + 1) attempt resp lastT
      = retryLoop fetch maxRetries fuel (attempt + 1) none true := by
  rw [retryLoop, hf]

theorem retryLoop_succ_response (fetch : Nat → AttemptResult)
    (maxRetries fuel attempt : Nat) (resp : Option Nat) (lastT : Bool) (code : Nat)
    (hf : fetch attempt = .response code) :
    retryLoop fetch maxRetries (fuel + 1) attempt resp lastT
      = if 200 ≤ code ∧ code < 300 then ⟨some code, none⟩
        else if !isRetryableError false code then
          ⟨some code, some (.nonRetryableHTTP code)⟩
        else retryLoop fetch maxRetries fuel (attempt + 1) (some code) false := by
  rw [retryLoop, hf]

theorem attemptFailsRetryably_response (code : Nat)
    (h : attemptFailsRetryably (.response code) = true) :
    ¬(200 ≤ code ∧ code < 300) ∧ isRetryableError false code = true := by
  simp only [attemptFailsRetryably, Bool.and_eq_true] at h
  refine ⟨?_, h.2⟩
  intro hc
  have : (decide (200 ≤ code) && decide (code < 300)) = true := by simp [hc.1, hc.2]
  rw [this] at h
  simp at h

theorem retryLoop_exhausted_of_retryable (fetch : Nat → AttemptResult) (maxRetries : Nat) :
    ∀ (fuel attempt : Nat) (resp : Option Nat) (lastT : Bool),
      (∀ i, attempt ≤ i → i ≤ attempt + fuel → attemptFailsRetryably (fetch i) = true) →
      retryLoop fetch maxRetries (fuel + 1) attempt resp lastT
        = (match fetch (attempt + fuel) with
          | .transportFailure =>
            (⟨none, some (.exhausted (maxRetries + 1) true)⟩ : HTTPOutcome)
          | .response code => ⟨some code, some (.exhausted (maxRetries + 1) false)⟩) := by
  intro fuel
  induction fuel with
  | zero =>
    intro attempt resp lastT h
    have h0 := h attempt le_rfl (by omega)
    cases hf : fetch (attempt + 0) with
    | transportFailure =>
      rw [retryLoop_succ_transport fetch maxRetries 0 attempt resp lastT
        (show fetch attempt = AttemptResult.transportFailure from hf), retryLoop_zero]
    | response code =>
      have hf' : fetch attempt = AttemptResult.response code := hf
      rw [hf'] at h0
      obtain ⟨h2xx, hretry⟩ := attemptFailsRetryably_response code h0
      rw [retryLoop_succ_response fetch maxRetries 0 attempt resp lastT code hf',
        if_neg h2xx, hretry]
      simp only [Bool.not_true, Bool.false_eq_true, if_false]
      rw [retryLoop_zero]
  | succ fuel ih =>
    intro attempt resp lastT h
    have h0 := h attempt le_rfl (by omega)
    have hnext : ∀ i, attempt + 1 ≤ i → i ≤ attempt + 1 + fuel →
        attemptFailsRetryably (fetch i) = true := fun i h1 h2 => h i (by omega) (by omega)
    have harith : attempt + (fuel + 1) = attempt + 1 + fuel := by omega
    rw [harith]
    cases hf : fetch attempt with
    | transportFailure =>
      rw [retryLoop_succ_transport fetch maxRetries (fuel + 1) attempt resp lastT hf]
      exact ih (attempt + 1) none true hnext
    | response code =>
      rw [hf] at h0
      obtain ⟨h2xx, hretry⟩ := attemptFailsRetryably_response code h0
      rw [retryLoop_succ_response fetch maxRetries (fuel + 1) attempt resp lastT code hf,
        if_neg h2xx, hretry]
      simp only [Bool.not_true, Bool.false_eq_true, if_false]
      exact ih (attempt + 1) (some code) false hnext

/-- C5: the retry classification.  First two conjuncts: `isRetryableError`
accepts exactly the transport-level failures and the status codes 429, 500,
502, 503, 504.  Third conjunct: a first-attempt response that is neither 2xx
nor retryable is returned immediately as a terminal `nonRetryableHTTP`
failure, for every retry budget and whatever the later attempts would have
returned.  Fourth and fifth conjuncts: a retryable first-attempt failure
(retryable status, or transport failure) makes the executor proceed to the
retry loop at attempt 1 instead of returning. -/
theorem retry_classification :
    (∀ statusCode : Nat, isRetryableError false statusCode = true ↔
        statusCode = 429 ∨ statusCode = 500 ∨ statusCode = 502 ∨ statusCode = 503
          ∨ statusCode = 504)
    ∧ (∀ statusCode : Nat, isRetryableError true statusCode = true)
    ∧ (∀ (fetch : Nat → AttemptResult) (maxRetries code : Nat),
        fetch 0 = .response code → ¬(200 ≤ code ∧ code < 300) →
        isRetryableError false code = false →
        retryableHTTPRequest fetch maxRetries = ⟨some code, some (.nonRetryableHTTP code)⟩)
    ∧ (∀ (fetch : Nat → AttemptResult) (maxRetries code : Nat),
        fetch 0 = .response code → ¬(200 ≤ code ∧ code < 300) →
        isRetryableError false code = true →
        retryableHTTPRequest fetch maxRetries
          = retryLoop fetch maxRetries maxRetries 1 (some code) false)
    ∧ (∀ (fetch : Nat → AttemptResult) (maxRetries : Nat),
        fetch 0 = .transportFailure →
        retryableHTTPRequest fetch maxRetries
          = retryLoop fetch maxRetries maxRetries 1 none true) := by
  refine ⟨?_, ?_, ?_, ?_, ?_⟩
  · intro statusCode
    unfold isRetryableError
    split_ifs with h0 h1 h2 <;> simp_all [beq_iff_eq]
    tauto
  · intro statusCode
    rfl
  · intro fetch maxRetries code h0 h2xx hnr
    rw [retryableHTTPRequest,
      retryLoop_succ_response fetch maxRetries maxRetries 0 none false code h0,
      if_neg h2xx, hnr]
    simp
  · intro fetch maxRetries code h0 h2xx hretry
    rw [retryableHTTPRequest,
      retryLoop_succ_response fetch maxRetries maxRetries 0 none false code h0,
      if_neg h2xx, hretry]
    simp
  · intro fetch maxRetries h0
    rw [retryableHTTPRequest,
      retryLoop_succ_transport fetch maxRetries maxRetries 0 none false h0]

/-- Witness for C5: a first-attempt 404 is returned as an immediate terminal
failure with a budget of 3 retries, even though every later attempt would
have succeeded. -/
theorem retry_classification_witness :
    retryableHTTPRequest (fun k => if k = 0 then .response 404 else .response 200) 3
      = ⟨some 404, some (.nonRetryableHTTP 404)⟩ :=
  retry_classification.2.2.1 (fun k => if k = 0 then .response 404 else .response 200)
    3 404 (by decide) (by decide) (by decide)

/-- C6 counterexample: with a budget of 3 retries, exhausting all four
attempts on HTTP 503 responses and exhausting them on HTTP 429 responses
produce the *same* terminal error, `exhausted 4 false` — the error records
only the nil `lastErr` (no transport failure) and the attempt count, so it
does not carry the last observed failure when that failure was a retryable
HTTP status code rather than a transport error. -/
theorem retry_exhaustion_counterexample :
    (retryableHTTPRequest (fun _ => .response 503) 3).err
        = (retryableHTTPRequest (fun _ => .response 429) 3).err
    ∧ (retryableHTTPRequest (fun _ => .response 503) 3).err
        = some (.exhausted 4 false) := by
  constructor <;> decide

/-- C6 amended: when every attempt (the initial one plus `maxRetries`
retries) fails retryably, the executor returns a terminal `exhausted` error
carrying the total attempt count `maxRetries + 1` and the final `lastErr`,
which records a failure only when the *last* attempt failed at transport
level; when the last failure was a retryable HTTP status code, the error's
failure slot is nil (`false`) and the status is observable only through the
separately returned last response. -/
theorem retry_exhaustion_amended :
    ∀ (fetch : Nat → AttemptResult) (maxRetries : Nat),
      (∀ i, i ≤ maxRetries → attemptFailsRetryably (fetch i) = true) →
      retryableHTTPRequest fetch maxRetries
        = (match fetch maxRetries with
          | .transportFailure =>
            (⟨none, some (.exhausted (maxRetries + 1) true)⟩ : HTTPOutcome)
          | .response code =>
            ⟨some code, some (.exhausted (maxRetries + 1) false)⟩) := by
  intro fetch maxRetries h
  rw [retryableHTTPRequest,
    retryLoop_exhausted_of_retryable fetch maxRetries maxRetries 0 none false
      (fun i _ h2 => h i (by omega)), Nat.zero_add]

/-- Witness for C6 amended: all four attempts return 503, and the executor
returns the last response together with the exhaustion error carrying a nil
last transport error. -/
theorem retry_exhaustion_amended_witness :
    retryableHTTPRequest (fun _ => AttemptResult.response 503) 3
      = ⟨some 503, some (.exhausted 4 false)⟩ :=
  retry_exhaustion_amended (fun _ => AttemptResult.response 503) 3 (by decide)

/-- C7 counterexample: the completion profile performs 2 retries while the
Validation Engine's remote call (`fetchCasesForRunID`, a single
`http.DefaultClient.Do` with no retry loop) performs 0, so the completion
profile does not have *fewer* retries than the Validation Engine's calls. -/
theorem conservative_profile_counterexample :
    completionRetryConfig.maxRetries = 2
    ∧ validationFetchMaxRetries = 0
    ∧ ¬ completionRetryConfig.maxRetries < validationFetchMaxRetries := by
  refine ⟨rfl, rfl, by decide⟩

/-- C7 amended: the completion profile is strictly more conservative than the
*default* retry profile used by the executor's other retrying call site
(`fetchAllInProgressRuns`) — fewer retries (2 < 3) and a shorter request
timeout (20s < 30s) — while the Validation Engine's remote calls bypass the
retrying executor entirely: a single attempt through the default HTTP client,
which has no request timeout. -/
theorem conservative_profile_amended :
    completionRetryConfig.maxRetries < defaultRetryConfig.maxRetries
    ∧ completionRetryConfig.requestTimeoutMs < defaultRetryConfig.requestTimeoutMs
    ∧ validationFetchMaxRetries = 0
    ∧ validationFetchTimeoutMs = none := by
  refine ⟨by decide, by decide, rfl, rfl⟩

/-! ## Helper lemma about the MatchResults accumulator -/

theorem foldl_append_if_eq_filter (confirm : Nat → Bool) :
    ∀ (schedule : List Nat) (acc : List Nat),
      schedule.foldl (fun acc runID => if confirm runID then acc ++ [runID] else acc) acc
        = acc ++ schedule.filter confirm := by
  intro schedule
  induction schedule with
  | nil => intro acc; simp
  | cons runID rest ih =>
    intro acc
    rw [List.foldl_cons, ih, List.filter_cons]
    by_cases h : confirm runID
    · rw [if_pos h, if_pos h, List.append_assoc, List.singleton_append]
    · rw [if_neg h, if_neg h]

/-- C8 counterexample: a pipeline execution in which the Validation Engine is
handed the (sorted) candidate list `[1, 2]`, both runs are confirmed, and the
concurrent validations complete in the order `[2, 1]`: the accumulated
Confirmed list written to `final.txt` is `[2, 1]`, which is not in ascending
numeric order — `MatchResults` applies no sort before writing. -/
theorem sorted_outputs_counterexample :
    List.Perm [2, 1] [1, 2]
    ∧ matchValidRunIDs [2, 1] (fun _ => true) = [2, 1]
    ∧ ¬ List.Sorted (· ≤ ·) (matchValidRunIDs [2, 1] (fun _ => true)) := by
  refine ⟨by decide, by decide, by decide⟩

/-- C8 amended: only the Selection Engine sorts its output — `processResults`
always produces an ascending run-ID sequence (`sort.Ints`) — while the
Validation Engine's output list is exactly the confirmed run IDs in the order
the concurrent validations complete, with no sort applied before it is
written out. -/
theorem sorted_outputs_amended :
    (∀ runResults : List (Nat × List TestResult),
      List.Sorted (· ≤ ·) (processResults runResults))
    ∧ (∀ (schedule : List Nat) (confirm : Nat → Bool),
        matchValidRunIDs schedule confirm = schedule.filter confirm) := by
  constructor
  · intro runResults
    exact List.sorted_mergeSort'
      ((runResults.filter (fun p => processRun p.2)).map Prod.fst)
  · intro schedule confirm
    rw [matchValidRunIDs, foldl_append_if_eq_filter confirm schedule []]
    rfl

/-! ## Helper lemmas about the completion stage and the error ledger -/

theorem completeStage_cons (success : Int → Bool) (j : Int) (rest : List Int)
    (ledger : List String) :
    completeStage success (j :: rest) ledger
      = completeStage success rest (if success j then ledger else logError ledger j) := by
  rw [completeStage, List.foldl_cons]
  by_cases h : success j
  · rw [if_pos h]; rfl
  · rw [if_neg h]; rfl

theorem completeStage_eq_append (success : Int → Bool) :
    ∀ (runIDs : List Int) (ledger : List String),
      ∃ tail, completeStage success runIDs ledger = ledger ++ tail := by
  intro runIDs
  induction runIDs with
  | nil => intro ledger; exact ⟨[], by simp [completeStage]⟩
  | cons j rest ih =>
    intro ledger
    rw [completeStage_cons]
    by_cases h : success j
    · rw [if_pos h]; exact ih ledger
    · rw [if_neg h]
      obtain ⟨t, ht⟩ := ih (logError ledger j)
      refine ⟨errorEntry j :: t, ?_⟩
      rw [ht]
      simp [logError]

theorem count_le_completeStage (success : Int → Bool) (runIDs : List Int)
    (ledger : List String) (e : String) :
    ledger.count e ≤ (completeStage success runIDs ledger).count e := by
  obtain ⟨t, ht⟩ := completeStage_eq_append success runIDs ledger
  rw [ht, List.count_append]
  omega

theorem count_bump_completeStage (success : Int → Bool) :
    ∀ (runIDs : List Int) (ledger : List String) (runID : Int),
      runID ∈ runIDs → success runID = false →
      ledger.count (errorEntry runID) + 1
        ≤ (completeStage success runIDs ledger).count (errorEntry runID) := by
  intro runIDs
  induction runIDs with
  | nil => intro ledger id h; cases h
  | cons j rest ih =>
    intro ledger id hmem hfail
    rw [completeStage_cons]
    rcases List.mem_cons.mp hmem with rfl | hmem'
    · rw [if_neg (by simp [hfail])]
      have hle := count_le_completeStage success rest (logError ledger id) (errorEntry id)
      have hcnt : (logError ledger id).count (errorEntry id)
          = ledger.count (errorEntry id) + 1 := by
        simp [logError, List.count_append]
      omega
    · by_cases h : success j
      · rw [if_pos h]; exact ih ledger id hmem' hfail
      · rw [if_neg h]
        have h1 := ih (logError ledger j) id hmem' hfail
        have h2 : ledger.count (errorEntry id) ≤ (logError ledger j).count (errorEntry id) := by
          rw [logError, List.count_append]
          omega
        omega

/-- C9: the error ledger is append-only.  First conjunct: a completion pass
only appends to the ledger — the prior content survives as a prefix of the
result, so entries written by earlier executions are never removed or
overwritten.  Second conjunct: two pipeline executions that each fail on a
shared run ID leave (at least) two new `errorEntry` lines for that run ID in
the ledger. -/
theorem ledger_append_only :
    (∀ (success : Int → Bool) (runIDs : List Int) (ledger : List String),
        ∃ tail, completeStage success runIDs ledger = ledger ++ tail)
    ∧ (∀ (s1 s2 : Int → Bool) (ids1 ids2 : List Int) (runID : Int) (ledger : List String),
        runID ∈ ids1 → s1 runID = false → runID ∈ ids2 → s2 runID = false →
        ledger.count (errorEntry runID) + 2
          ≤ (completeStage s2 ids2 (completeStage s1 ids1 ledger)).count
              (errorEntry runID)) := by
  constructor
  · exact fun success runIDs ledger => completeStage_eq_append success runIDs ledger
  · intro s1 s2 ids1 ids2 id ledger h1 hf1 h2 hf2
    have ha := count_bump_completeStage s1 ids1 ledger id h1 hf1
    have hb := count_bump_completeStage s2 ids2 (completeStage s1 ids1 ledger) id h2 hf2
    omega

/-- Witness for C9: two executions, each completing only run 7 and failing,
leave at least two ledger entries for run 7 starting from an empty ledger. -/
theorem ledger_append_only_witness :
    (([] : List String).count (errorEntry 7)) + 2
      ≤ (completeStage (fun _ => false) [7]
          (completeStage (fun _ => false) [7] [])).count (errorEntry 7) :=
  ledger_append_only.2 (fun _ => false) (fun _ => false) [7] [7] 7 []
    (by decide) rfl (by decide) rfl

/-- C10: lenient run-ID parsing.  First conjunct: a token of the hand-off
file whose `Sscanf "%d"` scan fails (it is empty or has no leading decimal
integer — per `Sscanf` semantics a token such as `12abc` still scans 12)
contributes the integer 0 at its position in the parsed list.  Remaining
conjuncts: an empty and a whitespace-only `final.txt` both parse to `[0]`,
and `CompleteRuns` on an empty `final.txt` issues exactly one completion
call, for run ID 0. -/
theorem lenient_run_id_parsing :
    (∀ (content : List Char) (i : Nat) (token : List Char),
        (splitComma (trimSpace content))[i]? = some token →
        sscanfInt token = none →
        (readRunIDs content)[i]? = some 0)
    ∧ readRunIDs [] = [0]
    ∧ readRunIDs "   ".data = [0]
    ∧ (completeRunsModel [] (fun _ => true) []).1 = [0] := by
  refine ⟨?_, by decide, by decide, by decide⟩
  intro content i token htok hscan
  rw [readRunIDs, List.getElem?_map, htok]
  simp [hscan]

/-- Witness for C10: in `12,abc` the second token `abc` is non-numeric and
parses to 0. -/
theorem lenient_run_id_parsing_witness :
    (readRunIDs "12,abc".data)[1]? = some 0 :=
  lenient_run_id_parsing.1 "12,abc".data 1 "abc".data (by decide) (by decide)
